import Mathlib

/-!
# Verification of the jevois Component / Parameter / Serial core

Shallow embedding of the code in
`src/include/jevois/Component/details/ComponentImpl.H`,
`src/include/jevois/Core/Serial.H` and `src/include/jevois/Util/Utils.H`,
together with theorems settling the specification claims about it.

Parameter values are modelled by the inductive `PVal`; the static type `T`
of the C++ templates `setParamVal<T>` / `getParamVal<T>` is modelled by the
type tag `PType`, and the `dynamic_cast<ParameterCore<T>*>` test becomes a
tag comparison.  C++ exceptions are modelled with `Except`; since a C++
exception does not roll back prior mutations, the stateful operations
return the (possibly partially mutated) component tree alongside the
`Except` outcome.  Pointer identity of sub-components is modelled by a
numeric id `cid` carried by every node.
-/

namespace JevoisModel

/-- Type tag for the static type `T` of a Parameter (the model uses three
representative instantiations: `bool`, integral, `std::string`). -/
inductive PType where
  | tBool
  | tInt
  | tStr
  deriving DecidableEq, Repr

/-- A parameter value together with its static type. -/
inductive PVal where
  | pBool (b : Bool)
  | pInt (n : Int)
  | pStr (s : String)
  deriving DecidableEq, Repr

/-- The static type of a value. -/
def PVal.ptype : PVal → PType
  | .pBool _ => .tBool
  | .pInt _ => .tInt
  | .pStr _ => .tStr

/-- A Parameter: a named, typed configuration slot owned by a Component. -/
structure Param where
  name : String
  value : PVal
  deriving DecidableEq, Repr

/-- Error kinds of §7 of the spec.  `oob` is not a C++ exception: it models
the undefined behaviour of an out-of-bounds `std::vector` access
(`ret[0]` on an empty vector in `getParamValUnique`). -/
inductive Err where
  | nameClash
  | notFound
  | typeMismatch
  | validation
  | multipleMatch
  | oob
  deriving DecidableEq, Repr

/-- Decidable equality of `Except` outcomes (used to evaluate the
theorems below on concrete inputs). -/
def exceptDecEq [DecidableEq ε] [DecidableEq α] : DecidableEq (Except ε α)
  | .ok a, .ok b =>
    if h : a = b then .isTrue (h ▸ rfl) else .isFalse (fun hh => h (by cases hh; rfl))
  | .error a, .error b =>
    if h : a = b then .isTrue (h ▸ rfl) else .isFalse (fun hh => h (by cases hh; rfl))
  | .ok _, .error _ => .isFalse (fun hh => Except.noConfusion hh)
  | .error _, .ok _ => .isFalse (fun hh => Except.noConfusion hh)

instance [DecidableEq ε] [DecidableEq α] : DecidableEq (Except ε α) := exceptDecEq

/-- A Component: a named node of the ownership tree.  `cid` models the
object's address (pointer identity), `path` the cached absolute path,
`initialized` the runstate flag; `params` and `subs` are the owned
Parameters and sub-Components in insertion order. -/
inductive Comp where
  | node (cid : Nat) (iname : String) (path : String) (initialized : Bool)
      (params : List Param) (subs : List Comp)

/-- Pointer identity of a Component. -/
def Comp.cid : Comp → Nat
  | .node i _ _ _ _ _ => i

/-- Instance name of a Component. -/
def Comp.iname : Comp → String
  | .node _ n _ _ _ _ => n

/-- Cached absolute path of a Component. -/
def Comp.path : Comp → String
  | .node _ _ p _ _ _ => p

/-- Runstate flag of a Component. -/
def Comp.initialized : Comp → Bool
  | .node _ _ _ b _ _ => b

/-- Owned Parameters of a Component, in declaration order. -/
def Comp.params : Comp → List Param
  | .node _ _ _ _ ps _ => ps

/-- Owned sub-Components of a Component, in insertion order. -/
def Comp.subs : Comp → List Comp
  | .node _ _ _ _ _ ss => ss

/-- Replace the sub-Component list of a Component. -/
def Comp.withSubs : Comp → List Comp → Comp
  | .node i n p b ps _, ss => .node i n p b ps ss

/-! ## Descriptor resolution

The resolver `findParamAndActOnIt` lives in `Component.C`, which is not
under src/; it is modelled from the spec (§3 Descriptor, §4.3, §6):
a descriptor is a colon-separated list of segments, a `*` segment matches
every name, a literal matches exactly (case-sensitive); all leading
segments match sub-Component instance names along a downward walk from the
invoking Component and the trailing segment matches a Parameter name;
matches are visited depth-first, children in insertion order. -/

/-- Split a character list at every occurrence of `c` (the separators are
dropped; n separators yield n+1 pieces). -/
def splitCharsOn (c : Char) : List Char → List (List Char)
  | [] => [[]]
  | x :: xs =>
    if x = c then [] :: splitCharsOn c xs
    else
      match splitCharsOn c xs with
      | r :: rs => (x :: r) :: rs
      | [] => [[x]]

/-- Modelled from the spec: split a descriptor into its colon-separated
segments. -/
def splitColon (s : String) : List String :=
  (splitCharsOn ':' s.data).map String.mk

/-- Join resolved path pieces back with colons (the "unrolled" descriptor
pushed into the result vector by `setParamVal` / `getParamVal`). -/
def joinColon : List String → String
  | [] => ""
  | [s] => s
  | s :: rest => s ++ ":" ++ joinColon rest

/-- Modelled from the spec: a descriptor segment matches a name iff it is
the wildcard `*` or is equal to the name (case-sensitive). -/
def segMatches (seg nm : String) : Bool :=
  seg == "*" || seg == nm

/-- One descriptor match: the index path to the owning sub-Component,
the index of the Parameter in its owner, and the unrolled name path. -/
structure Hit where
  cpath : List Nat
  pidx : Nat
  unrolled : List String
  deriving DecidableEq, Repr

/-- Matches of the trailing descriptor segment among a Parameter list. -/
def hitParams (seg : String) : List Param → Nat → List Hit
  | [], _ => []
  | p :: ps, i =>
    (if segMatches seg p.name then [⟨[], i, [p.name]⟩] else [])
      ++ hitParams seg ps (i + 1)

/-- Pair each list element with its position, starting at `i`. -/
def enumIdx : List Comp → Nat → List (Nat × Comp)
  | [], _ => []
  | c :: cs, i => (i, c) :: enumIdx cs (i + 1)

/-- Modelled from the spec: all Parameters matched by a segment list,
depth-first, children in insertion order. -/
def matchHits : List String → Comp → List Hit
  | [], _ => []
  | [seg], c => hitParams seg c.params 0
  | seg :: rest, c =>
    ((enumIdx c.subs 0).map (fun ic =>
      if segMatches seg ic.2.iname then
        (matchHits rest ic.2).map (fun h =>
          ⟨ic.1 :: h.cpath, h.pidx, ic.2.iname :: h.unrolled⟩)
      else [])).flatten

/-- The Parameter stored at an index path + parameter index, if any. -/
def paramAt : List Nat → Nat → Comp → Option Param
  | [], pidx, c => c.params.get? pidx
  | i :: rest, pidx, c =>
    match c.subs.get? i with
    | some s => paramAt rest pidx s
    | none => none

/-- Apply `f` to the element at position `i` of a list (identity when out
of range). -/
def modList : List α → Nat → (α → α) → List α
  | [], _, _ => []
  | x :: xs, 0, f => f x :: xs
  | x :: xs, n + 1, f => x :: modList xs n f

/-- Overwrite the value of the Parameter at an index path + parameter
index (identity when the location does not exist). -/
def setValAt : List Nat → Nat → PVal → Comp → Comp
  | [], pidx, v, .node ci n p b ps ss =>
    .node ci n p b (modList ps pidx (fun q => ⟨q.name, v⟩)) ss
  | i :: rest, pidx, v, .node ci n p b ps ss =>
    .node ci n p b ps (modList ss i (setValAt rest pidx v))

/-! ## `setParamVal` and friends (from ComponentImpl.H, lines 127-194)

`setParamVal` visits every match in order; for each it performs the
`dynamic_cast` type test (throwing `range_error` — here `Err.typeMismatch`
— on failure, with the earlier matches already set), then `p->set(val)`,
then pushes the unrolled descriptor.  The returned pair is the tree after
the call together with the outcome, because a C++ throw leaves the earlier
mutations in place. -/

/-- The per-match loop body of `setParamVal`, folded over the matches. -/
def setGo : List Hit → PVal → List String → Comp → Comp × Except Err (List String)
  | [], _, acc, c => (c, .ok acc.reverse)
  | h :: rest, v, acc, c =>
    match paramAt h.cpath h.pidx c with
    | some p =>
      if p.value.ptype = v.ptype then
        setGo rest v (joinColon h.unrolled :: acc) (setValAt h.cpath h.pidx v c)
      else (c, .error .typeMismatch)
    | none => (c, .error .typeMismatch)

/-- Embedding of `jevois::Component::setParamVal` (ComponentImpl.H lines 127-148). -/
def setParamVal (c : Comp) (descriptor : String) (v : PVal) :
    Comp × Except Err (List String) :=
  setGo (matchHits (splitColon descriptor) c) v [] c

/-- Embedding of `jevois::Component::setParamValUnique` (ComponentImpl.H lines 151-159):
first performs `setParamVal`, then throws a multiple-match `range_error`
when the returned list has more than one entry. -/
def setParamValUnique (c : Comp) (descriptor : String) (v : PVal) :
    Comp × Except Err Unit :=
  match setParamVal c descriptor v with
  | (c2, .error e) => (c2, .error e)
  | (c2, .ok ret) =>
    if ret.length > 1 then (c2, .error .multipleMatch) else (c2, .ok ())

/-- The per-match loop body of `getParamVal`, folded over the matches. -/
def getGo : List Hit → PType → List (String × PVal) → Comp →
    Except Err (List (String × PVal))
  | [], _, acc, _ => .ok acc.reverse
  | h :: rest, t, acc, c =>
    match paramAt h.cpath h.pidx c with
    | some p =>
      if p.value.ptype = t then
        getGo rest t ((joinColon h.unrolled, p.value) :: acc) c
      else .error .typeMismatch
    | none => .error .typeMismatch

/-- Embedding of `jevois::Component::getParamVal` (ComponentImpl.H lines 162-182). -/
def getParamVal (c : Comp) (descriptor : String) (t : PType) :
    Except Err (List (String × PVal)) :=
  getGo (matchHits (splitColon descriptor) c) t [] c

/-- Embedding of `jevois::Component::getParamValUnique` (ComponentImpl.H lines 185-194):
throws multiple-match when more than one match was returned, then returns
`ret[0].second` — an out-of-bounds vector access (`Err.oob`) when the
result list is empty. -/
def getParamValUnique (c : Comp) (descriptor : String) (t : PType) :
    Except Err PVal :=
  match getParamVal c descriptor t with
  | .error e => .error e
  | .ok ret =>
    if ret.length > 1 then .error .multipleMatch
    else
      match ret.get? 0 with
      | some x => .ok x.2
      | none => .error .oob

/-! ## Sub-component management (from ComponentImpl.H, lines 28-123)

`computeInstanceName` and `doRemoveSubComponent` live in `Component.C`,
which is not under src/; they are modelled from the spec (§4.1). -/

/-- Modelled from the spec: the deterministic default instance name derived
from the class name when no name is requested (the spec fixes only that it
is a deterministic function of the class name; the model uses the class
name itself). -/
def defaultName (classname : String) : String := classname

/-- Modelled from the spec: `computeInstanceName(requested, classname)`
returns `requested` if non-empty, else a deterministic default derived
from `classname`; it throws a name-clash error if the resulting name
collides with an existing sibling (checked under the same lock as
insertion).  The body is in `Component.C`, not under src/. -/
def computeInstanceName (requested classname : String) (siblings : List Comp) :
    Except Err String :=
  let nm := if requested = "" then defaultName classname else requested
  if siblings.any (fun s => s.iname = nm) then .error .nameClash else .ok nm

/-- Modelled from the spec: `init()` recursively brings a Component and its
sub-Components (insertion order) to the initialized runstate; the
`preInit`/`postInit` hooks carry no model-visible state. -/
def initComp (c : Comp) : Comp :=
  .node c.cid c.iname c.path true c.params (c.subs.attach.map (fun s => initComp s.1))
termination_by sizeOf c
decreasing_by
  have h1 : sizeOf s.1 < sizeOf c.subs := List.sizeOf_lt_of_mem s.2
  have h2 : sizeOf c.subs < sizeOf c := by
    cases c with
    | node ci n p b ps ss => simp only [Comp.subs, Comp.node.sizeOf_spec]; omega
  omega

/-- The call `absolutePath()` as used by `addSubComponent`: the cached absolute
path of the Component (spec §3: `path` is the cached absolute path used
as default for children). -/
def absolutePath (c : Comp) : String := c.path

/-- Embedding of `jevois::Component::addSubComponent` (ComponentImpl.H lines 28-58).
Under the exclusive lock, the new sub-Component is constructed with the
name computed by `computeInstanceName` (which throws `Err.nameClash` on a
sibling collision, before anything is attached), appended to the
sub-Component list, given the parent's absolute path; after unlocking, it
is brought to the parent's runstate (`init()` when the parent is
initialized) and returned.  `newId` models the address of the freshly
allocated object; `childParams` models the constructor's parameters.  The
returned pair is the parent's new state together with the outcome; on a
name clash the parent is returned unchanged. -/
def addSubComponent (parent : Comp) (requested classname : String)
    (childParams : List Param) (newId : Nat) : Comp × Except Err Comp :=
  match computeInstanceName requested classname parent.subs with
  | .error e => (parent, .error e)
  | .ok nm =>
    let child0 : Comp := .node newId nm (absolutePath parent) false childParams []
    let child := if parent.initialized then initComp child0 else child0
    (.node parent.cid parent.iname parent.path parent.initialized parent.params
       (parent.subs ++ [child]),
     .ok child)

/-- Observable events of `removeSubComponent`, in program order:
`resetHandle` models `component.reset()` on the caller's `shared_ptr`,
`uninitChild`/`detachChild` model `doRemoveSubComponent` (modelled from
the spec: graceful uninit then removal), and `logNotFound` models the
non-fatal `LERROR` on the not-found path. -/
inductive Ev where
  | resetHandle
  | uninitChild (cid : Nat)
  | detachChild (cid : Nat)
  | logNotFound
  deriving DecidableEq, Repr

/-- The loop of `removeSubComponent`: scan the sub-Component list for the
first child whose address equals the handle's (`itr->get() ==
component.get()`, pointer identity); when found, return the list without
it together with the events of the found path. -/
def removeSubLoop (subs : List Comp) (handle : Nat) :
    Option (List Comp × List Ev) :=
  match subs with
  | [] => none
  | c :: cs =>
    if c.cid = handle then
      some (cs, [.resetHandle, .uninitChild handle, .detachChild handle])
    else
      match removeSubLoop cs handle with
      | some (cs2, evs) => some (c :: cs2, evs)
      | none => none

/-- Embedding of `jevois::Component::removeSubComponent` (ComponentImpl.H lines
100-123).  The result is the parent's new state, the caller's handle after
the call (`none` models the null `shared_ptr` left by `component.reset()`)
and the emitted events in program order.  On the not-found path the
function only logs (`LERROR ... Ignored.`) — it does not throw — and
leaves both the sub-Component list and the caller's handle unchanged. -/
def removeSubComponent (parent : Comp) (handle : Nat) :
    Comp × Option Nat × List Ev :=
  match removeSubLoop parent.subs handle with
  | some (subs2, evs) => (parent.withSubs subs2, none, evs)
  | none => (parent, some handle, [.logNotFound])

/-! ## Serial (from Core/Serial.H)

The bodies of `Serial::writeString` and of the Parameter `set` machinery
are in `Serial.C` / `ParameterImpl.H`, not under src/; they are modelled
from the spec (§4.2, §4.5).  The `format` regex and the `linestyle`
terminator table are taken from Serial.H itself (lines 44-45 and
59-63). -/

/-- Embedding of `jevois::serial::LineStyle` (Serial.H line 56). -/
inductive LineStyle where
  | LF
  | CR
  | CRLF
  | Zero
  | Sloppy
  deriving DecidableEq, Repr

/-- Output line terminator of each style, from the `linestyle` parameter
documentation in Serial.H lines 59-63: LF is 0x0a, CR is 0x0d, CRLF is
0x0d 0x0a, Zero is 0x00, and Sloppy issues CRLF in outputs. -/
def lineTerminator : LineStyle → List Char
  | .LF => ['\x0a']
  | .CR => ['\x0d']
  | .CRLF => ['\x0d', '\x0a']
  | .Zero => ['\x00']
  | .Sloppy => ['\x0d', '\x0a']

/-- Modelled from the spec: `Serial::writeString` (declared Serial.H lines
107-109, body in Serial.C) appends the configured terminator to the
caller's string and writes the whole buffer; the result is the byte
sequence put on the wire. -/
def writeString (style : LineStyle) (s : String) : List Char :=
  s.data ++ lineTerminator style

/-- The regex `^[5-8][NEO][12]$` attached to the Serial `format` parameter
(Serial.H lines 44-45), translated to a decidable match: exactly three
characters, the first in `5`-`8`, the second one of `N`, `E`, `O`, the
third `1` or `2`. -/
def matchesFormatRegex (s : String) : Bool :=
  match s.data with
  | [d, q, r] =>
    (decide ('5' ≤ d) && decide (d ≤ '8'))
      && (q == 'N' || q == 'E' || q == 'O')
      && (r == '1' || r == '2')
  | _ => false

/-- State of the string-typed Serial `format` Parameter. -/
structure FormatParam where
  value : String
  deriving DecidableEq, Repr

/-- Modelled from the spec: `Parameter::set` for the Serial `format`
parameter — the constraint checks (here the regex of Serial.H line 45)
run first; if the check fails the stored value is unchanged and a
validation error is raised, otherwise the new value is stored.  The `set`
machinery lives in ParameterImpl.H, not under src/. -/
def formatSet (p : FormatParam) (s : String) : FormatParam × Except Err Unit :=
  if matchesFormatRegex s then (⟨s⟩, .ok ()) else (p, .error .validation)

/-! ## Concrete components used to evaluate the theorems -/

/-- Scenario 3 of the spec: a root with children `a` and `b`, each owning
a boolean Parameter `log = true`. -/
def cRootLogs : Comp :=
  .node 0 "root" "" false []
    [.node 1 "a" "" false [⟨"log", .pBool true⟩] [],
     .node 2 "b" "" false [⟨"log", .pBool true⟩] []]

/-- The same tree after both `log` Parameters have been set to `false`. -/
def cRootLogsSet : Comp :=
  .node 0 "root" "" false []
    [.node 1 "a" "" false [⟨"log", .pBool false⟩] [],
     .node 2 "b" "" false [⟨"log", .pBool false⟩] []]

/-- A root owning a single integer Parameter `fps = 30` and no
sub-Components; the descriptor `nosuch` has zero matches on it. -/
def cFpsRoot : Comp :=
  .node 0 "root" "" false [⟨"fps", .pInt 30⟩] []

/-- An initialized root with no children, used to exercise
`addSubComponent`. -/
def cInitRoot : Comp :=
  .node 0 "root" "" true [] []

/-- A root owning one child named `x` (with pointer id 1), used to
exercise the name-clash path of `addSubComponent`. -/
def cClashRoot : Comp :=
  .node 0 "root" "" false [] [.node 1 "x" "" false [] []]

/-- A root owning children `a` (id 1) and `b` (id 2), used to exercise
`removeSubComponent`. -/
def cRemParent : Comp :=
  .node 0 "root" "" false []
    [.node 1 "a" "" false [] [], .node 2 "b" "" false [] []]

end JevoisModel

/-! ## Helper lemmas -/

namespace JevoisModel

/-- Reading back the modified position of `modList` applies `f`. -/
theorem modList_get?_self (l : List α) (f : α → α) :
    ∀ i, (modList l i f)[i]? = l[i]?.map f := by
  induction l with
  | nil => intro i; simp [modList]
  | cons x xs ih =>
    intro i
    cases i with
    | zero => simp [modList]
    | succ n => simpa [modList] using ih n

/-- Reading any other position of `modList` is unchanged. -/
theorem modList_get?_ne (l : List α) (f : α → α) :
    ∀ i j, i ≠ j → (modList l i f)[j]? = l[j]? := by
  induction l with
  | nil => intro i j _; simp [modList]
  | cons x xs ih =>
    intro i j hne
    cases i with
    | zero =>
      cases j with
      | zero => exact absurd rfl hne
      | succ m => simp [modList]
    | succ n =>
      cases j with
      | zero => simp [modList]
      | succ m =>
        simpa [modList] using ih n m (by omega)

/-- Lookup after `setValAt`: the targeted location (and only it) carries
the new value, with its name preserved. -/
theorem paramAt_setValAt (cp2 : List Nat) :
    ∀ (c : Comp) (cp : List Nat) (pj pi2 : Nat) (v : PVal),
    paramAt cp2 pj (setValAt cp pi2 v c) =
      if cp2 = cp ∧ pj = pi2 then (paramAt cp2 pj c).map (fun p => ⟨p.name, v⟩)
      else paramAt cp2 pj c := by
  induction cp2 with
  | nil =>
    intro c cp pj pi2 v
    cases c with
    | node ci n p b ps ss =>
      cases cp with
      | nil =>
        by_cases h : pj = pi2
        · subst h
          simp [setValAt, paramAt, Comp.params, modList_get?_self]
        · simp [setValAt, paramAt, Comp.params,
            modList_get?_ne ps (fun q => ⟨q.name, v⟩) pi2 pj (fun hh => h hh.symm), h]
      | cons i rest =>
        simp [setValAt, paramAt, Comp.params]
  | cons j rest2 ih =>
    intro c cp pj pi2 v
    cases c with
    | node ci n p b ps ss =>
      cases cp with
      | nil => simp [setValAt, paramAt, Comp.subs]
      | cons i rest =>
        by_cases hj : j = i
        · subst hj
          cases hss : ss[j]? with
          | none =>
            simp [setValAt, paramAt, Comp.subs, modList_get?_self, hss]
          | some s =>
            simp only [setValAt, paramAt, Comp.subs, List.get?_eq_getElem?,
              modList_get?_self, hss, Option.map_some', ih, List.cons.injEq]
            by_cases hc : rest2 = rest ∧ pj = pi2
            · simp [hc]
            · simp [hc, (by tauto : ¬((j = j ∧ rest2 = rest) ∧ pj = pi2))]
        · simp [setValAt, paramAt, Comp.subs,
            modList_get?_ne ss (setValAt rest pi2 v) i j (fun hh => hj hh.symm), hj]

/-- When the match loop of `setParamVal` completes without an error, any
location that already held the new value still holds it (with the same
name) afterwards: each step either leaves the location alone or rewrites
its value to the very same `v`. -/
theorem setGo_ok_preserves (hits : List Hit) :
    ∀ (v : PVal) (acc : List String) (c c2 : Comp) (ret : List String)
      (cp : List Nat) (pj : Nat) (nm : String),
    setGo hits v acc c = (c2, .ok ret) →
    paramAt cp pj c = some ⟨nm, v⟩ →
    paramAt cp pj c2 = some ⟨nm, v⟩ := by
  induction hits with
  | nil =>
    intro v acc c c2 ret cp pj nm hgo hat
    simp only [setGo, Prod.mk.injEq] at hgo
    rw [← hgo.1]
    exact hat
  | cons h rest ih =>
    intro v acc c c2 ret cp pj nm hgo hat
    cases hp : paramAt h.cpath h.pidx c with
    | none => simp [setGo, hp] at hgo
    | some p =>
      simp only [setGo, hp] at hgo
      by_cases ht : p.value.ptype = v.ptype
      · rw [if_pos ht] at hgo
        refine ih v _ _ c2 ret cp pj nm hgo ?_
        rw [paramAt_setValAt]
        by_cases hcond : cp = h.cpath ∧ pj = h.pidx
        · rw [if_pos hcond, hat]; rfl
        · rw [if_neg hcond]; exact hat
      · rw [if_neg ht] at hgo
        simp at hgo

/-- When the match loop of `setParamVal` completes without an error, every
matched location holds the new value afterwards. -/
theorem setGo_ok_all_set (hits : List Hit) :
    ∀ (v : PVal) (acc : List String) (c c2 : Comp) (ret : List String),
    setGo hits v acc c = (c2, .ok ret) →
    ∀ h0 ∈ hits, ∃ nm, paramAt h0.cpath h0.pidx c2 = some ⟨nm, v⟩ := by
  induction hits with
  | nil =>
    intro v acc c c2 ret _ h0 hmem
    cases hmem
  | cons h rest ih =>
    intro v acc c c2 ret hgo h0 hmem
    cases hp : paramAt h.cpath h.pidx c with
    | none => simp [setGo, hp] at hgo
    | some p =>
      simp only [setGo, hp] at hgo
      by_cases ht : p.value.ptype = v.ptype
      · rw [if_pos ht] at hgo
        rcases List.mem_cons.mp hmem with rfl | hmem2
        · refine ⟨p.name, ?_⟩
          refine setGo_ok_preserves rest v _ _ c2 ret h0.cpath h0.pidx p.name hgo ?_
          rw [paramAt_setValAt]
          simp [hp]
        · exact ih v _ _ c2 ret hgo h0 hmem2
      · rw [if_neg ht] at hgo
        simp at hgo

/-- The scan loop of `removeSubComponent` finds nothing when no child has
the handle's address. -/
theorem removeSubLoop_eq_none (subs : List Comp) (handle : Nat)
    (h : ∀ c ∈ subs, c.cid ≠ handle) : removeSubLoop subs handle = none := by
  induction subs with
  | nil => rfl
  | cons c cs ih =>
    have hc : ¬c.cid = handle := h c (List.mem_cons_self c cs)
    have hrest := ih (fun x hx => h x (List.mem_cons_of_mem c hx))
    simp [removeSubLoop, hc, hrest]

/-- The scan loop of `removeSubComponent` succeeds when some child has the
handle's address, and the found path always emits the handle reset, the
child's uninit and its removal, in this order. -/
theorem removeSubLoop_found (subs : List Comp) (handle : Nat)
    (h : ∃ c ∈ subs, c.cid = handle) :
    ∃ subs2, removeSubLoop subs handle =
      some (subs2, [.resetHandle, .uninitChild handle, .detachChild handle]) := by
  induction subs with
  | nil =>
    rcases h with ⟨c, hc, _⟩
    cases hc
  | cons c cs ih =>
    by_cases hc : c.cid = handle
    · exact ⟨cs, by simp [removeSubLoop, hc]⟩
    · have hcs : ∃ x ∈ cs, x.cid = handle := by
        rcases h with ⟨x, hx, hxe⟩
        rcases List.mem_cons.mp hx with rfl | hx2
        · exact absurd hxe hc
        · exact ⟨x, hx2, hxe⟩
      rcases ih hcs with ⟨subs2, hloop⟩
      exact ⟨c :: subs2, by simp [removeSubLoop, hc, hloop]⟩

/-- After `init()` a Component's initialized flag is set. -/
theorem initComp_initialized (c : Comp) : (initComp c).initialized = true := by
  rw [initComp]
  rfl

/-- Replacing the sub-Component list and reading it back. -/
theorem withSubs_subs (c : Comp) (ss : List Comp) : (c.withSubs ss).subs = ss := by
  cases c
  rfl

/-- Full specification of the scan loop of `removeSubComponent` on the
found path: it removes exactly the first child whose address equals the
handle, leaving every other child in place. -/
theorem removeSubLoop_spec (subs : List Comp) (handle : Nat)
    (h : ∃ c ∈ subs, c.cid = handle) :
    ∃ pre c post, subs = pre ++ c :: post ∧ c.cid = handle ∧
      (∀ x ∈ pre, x.cid ≠ handle) ∧
      removeSubLoop subs handle =
        some (pre ++ post, [.resetHandle, .uninitChild handle, .detachChild handle]) := by
  induction subs with
  | nil =>
    rcases h with ⟨c, hc, _⟩
    cases hc
  | cons c cs ih =>
    by_cases hc : c.cid = handle
    · exact ⟨[], c, cs, rfl, hc, by simp, by simp [removeSubLoop, hc]⟩
    · have hcs : ∃ x ∈ cs, x.cid = handle := by
        rcases h with ⟨x, hx, hxe⟩
        rcases List.mem_cons.mp hx with rfl | hx2
        · exact absurd hxe hc
        · exact ⟨x, hx2, hxe⟩
      rcases ih hcs with ⟨pre, c2, post, hsplit, hcid, hpre, hloop⟩
      refine ⟨c :: pre, c2, post, by rw [hsplit]; rfl, hcid, ?_, ?_⟩
      · intro x hx
        rcases List.mem_cons.mp hx with rfl | hx2
        · exact hc
        · exact hpre x hx2
      · simp [removeSubLoop, hc, hloop]

/-- Characterization of the `format` regex `^[5-8][NEO][12]$`: a string
matches iff it is exactly three characters, with data bits `5`-`8`,
parity `N`, `E` or `O`, and stop bits `1` or `2`. -/
theorem matchesFormatRegex_iff (s : String) :
    matchesFormatRegex s = true ↔
      ∃ d q r, s.data = [d, q, r] ∧ ('5' ≤ d ∧ d ≤ '8') ∧
        (q = 'N' ∨ q = 'E' ∨ q = 'O') ∧ (r = '1' ∨ r = '2') := by
  constructor
  · intro h
    cases hd : s.data with
    | nil => simp [matchesFormatRegex, hd] at h
    | cons a l1 =>
      cases l1 with
      | nil => simp [matchesFormatRegex, hd] at h
      | cons b l2 =>
        cases l2 with
        | nil => simp [matchesFormatRegex, hd] at h
        | cons cc l3 =>
          cases l3 with
          | cons e l4 => simp [matchesFormatRegex, hd] at h
          | nil =>
            simp only [matchesFormatRegex, hd, Bool.and_eq_true, Bool.or_eq_true,
              decide_eq_true_eq, beq_iff_eq] at h
            exact ⟨a, b, cc, rfl, h.1.1, or_assoc.mp h.1.2, h.2⟩
  · rintro ⟨d, q, r, hd, h1, h2, h3⟩
    simp only [matchesFormatRegex, hd, Bool.and_eq_true, Bool.or_eq_true,
      decide_eq_true_eq, beq_iff_eq]
    exact ⟨⟨h1, or_assoc.mpr h2⟩, h3⟩

end JevoisModel

/-! ## Claim theorems -/

namespace JevoisModel

/-- Claim C1, counterexample: on the spec's own scenario (children `a` and
`b` each owning `log = true`), `setParamValUnique("*:log", false)` does
raise the multiple-match error, but `a:log` does not retain its previous
value `true` — it has been set to `false` — contradicting the claim that
every match retains the value it had before the call. -/
theorem C1_counterexample :
    (setParamValUnique cRootLogs "*:log" (PVal.pBool false)).2 =
      Except.error Err.multipleMatch ∧
    paramAt [0] 0 (setParamValUnique cRootLogs "*:log" (PVal.pBool false)).1 ≠
      some ⟨"log", PVal.pBool true⟩ ∧
    paramAt [0] 0 (setParamValUnique cRootLogs "*:log" (PVal.pBool false)).1 =
      some ⟨"log", PVal.pBool false⟩ := by
  decide

/-- Claim C1 as amended: when `setParamValUnique` finds more than one
matching Parameter (and the underlying `setParamVal` pass succeeds), it
raises a multiple-match error, but only after every matched Parameter has
been set to the new value; the matches do not retain their prior
values. -/
theorem C1_amended_multiple_match_sets_then_throws
    (c : Comp) (descriptor : String) (v : PVal) (c2 : Comp) (ret : List String)
    (h1 : setParamVal c descriptor v = (c2, .ok ret)) (h2 : 1 < ret.length) :
    setParamValUnique c descriptor v = (c2, Except.error Err.multipleMatch) ∧
    ∀ h0 ∈ matchHits (splitColon descriptor) c, ∃ nm,
      paramAt h0.cpath h0.pidx c2 = some ⟨nm, v⟩ := by
  constructor
  · rw [setParamValUnique, h1]
    simp only [gt_iff_lt, h2, if_pos]
  · intro h0 hmem
    exact setGo_ok_all_set (matchHits (splitColon descriptor) c) v [] c c2 ret h1 h0 hmem

/-- Claim C1, witness: the amended theorem evaluated on the spec's
scenario 3. -/
theorem C1_witness :
    setParamValUnique cRootLogs "*:log" (PVal.pBool false) =
      (cRootLogsSet, Except.error Err.multipleMatch) :=
  (C1_amended_multiple_match_sets_then_throws cRootLogs "*:log" (PVal.pBool false)
    cRootLogsSet ["a:log", "b:log"] rfl (by decide)).1

/-- Claim C2, counterexample: on a Component where the descriptor `nosuch`
has zero matches, `setParamValUnique` does not raise the not-found error
(it silently succeeds) and `getParamValUnique` does not raise it either
(it performs the out-of-bounds access `ret[0]` on the empty result
vector). -/
theorem C2_counterexample :
    (setParamValUnique cFpsRoot "nosuch" (PVal.pBool true)).2 ≠
      Except.error Err.notFound ∧
    getParamValUnique cFpsRoot "nosuch" PType.tBool ≠ Except.error Err.notFound ∧
    (setParamValUnique cFpsRoot "nosuch" (PVal.pBool true)).2 = Except.ok () ∧
    getParamValUnique cFpsRoot "nosuch" PType.tBool = Except.error Err.oob := by
  decide

/-- Claim C2 as amended: for every descriptor with zero matching
Parameters, `setParamValUnique` raises no error at all (it returns with
the tree unchanged), and `getParamValUnique` raises no not-found error:
it reads `ret[0]` of the empty result vector, an out-of-bounds access
(undefined behaviour, modelled as `Err.oob`). -/
theorem C2_amended_zero_match_unique_lookups
    (c : Comp) (descriptor : String) (v : PVal) (t : PType)
    (h : matchHits (splitColon descriptor) c = []) :
    setParamValUnique c descriptor v = (c, Except.ok ()) ∧
    getParamValUnique c descriptor t = Except.error Err.oob := by
  constructor
  · rw [setParamValUnique, setParamVal, h]
    rfl
  · rw [getParamValUnique, getParamVal, h]
    rfl

/-- Claim C2, witness: the amended theorem evaluated at a concrete
zero-match descriptor. -/
theorem C2_witness :
    setParamValUnique cFpsRoot "nosuch" (PVal.pBool true) = (cFpsRoot, Except.ok ()) :=
  (C2_amended_zero_match_unique_lookups cFpsRoot "nosuch" (PVal.pBool true)
    PType.tBool (by decide)).1

/-- Claim C3 (confirmed): for every descriptor with zero matching
Parameters, `setParamVal` raises no error, modifies no Parameter (the
tree is returned unchanged) and returns the empty list of resolved
descriptors. -/
theorem C3_zero_match_setParamVal
    (c : Comp) (descriptor : String) (v : PVal)
    (h : matchHits (splitColon descriptor) c = []) :
    setParamVal c descriptor v = (c, Except.ok []) := by
  rw [setParamVal, h]
  rfl

/-- Claim C3, witness: evaluated at a concrete zero-match descriptor. -/
theorem C3_witness :
    setParamVal cFpsRoot "nosuch" (PVal.pInt 5) = (cFpsRoot, Except.ok []) :=
  C3_zero_match_setParamVal cFpsRoot "nosuch" (PVal.pInt 5) (by decide)

/-- Claim C4 (confirmed): whenever the parent is initialized and
`addSubComponent` succeeds, the returned child is initialized at the
point of return, and it is the very object appended to the parent's
sub-Component list. -/
theorem C4_addSubComponent_inits_child
    (parent : Comp) (requested classname : String) (childParams : List Param)
    (newId : Nat) (p2 child : Comp)
    (h1 : parent.initialized = true)
    (h2 : addSubComponent parent requested classname childParams newId =
      (p2, .ok child)) :
    child.initialized = true ∧ p2.subs = parent.subs ++ [child] := by
  rw [addSubComponent] at h2
  cases hn : computeInstanceName requested classname parent.subs with
  | error e =>
    rw [hn] at h2
    simp at h2
  | ok nm =>
    rw [hn] at h2
    rw [h1] at h2
    simp only [if_pos, Prod.mk.injEq, Except.ok.injEq] at h2
    obtain ⟨hp2, hchild⟩ := h2
    constructor
    · rw [← hchild]
      exact initComp_initialized _
    · rw [← hp2, ← hchild]
      rfl

/-- Claim C4, witness: an initialized root receives a child `x` carrying
a Parameter `fps = 30`; the child is returned initialized and appended. -/
theorem C4_witness :
    (Comp.node 1 "x" "" true [⟨"fps", PVal.pInt 30⟩] []).initialized = true ∧
    (Comp.node 0 "root" "" true []
        [.node 1 "x" "" true [⟨"fps", PVal.pInt 30⟩] []]).subs =
      cInitRoot.subs ++ [.node 1 "x" "" true [⟨"fps", PVal.pInt 30⟩] []] :=
  C4_addSubComponent_inits_child cInitRoot "x" "MyClass" [⟨"fps", PVal.pInt 30⟩] 1
    (.node 0 "root" "" true [] [.node 1 "x" "" true [⟨"fps", PVal.pInt 30⟩] []])
    (.node 1 "x" "" true [⟨"fps", PVal.pInt 30⟩] []) rfl
    (by
      rw [addSubComponent]
      simp only [computeInstanceName, cInitRoot, Comp.subs, Comp.initialized,
        Comp.cid, Comp.iname, Comp.path, Comp.params, absolutePath, defaultName]
      norm_num
      rw [initComp]
      simp [Comp.subs, Comp.cid, Comp.iname, Comp.path, Comp.params])

/-- Claim C5 (confirmed): when the instance name computed for the new
child (the requested name if non-empty, else the default derived from the
class name) collides with an existing sibling, `addSubComponent` raises
the name-clash error and returns the parent unchanged: the sub-Component
list is exactly as before and no partially-constructed child remains
attached. -/
theorem C5_addSubComponent_name_clash
    (parent : Comp) (requested classname : String) (childParams : List Param)
    (newId : Nat)
    (h : parent.subs.any (fun s =>
        s.iname = (if requested = "" then defaultName classname else requested)) = true) :
    addSubComponent parent requested classname childParams newId =
      (parent, Except.error Err.nameClash) := by
  rw [addSubComponent, computeInstanceName]
  simp only [h]
  rfl

/-- Claim C5, witness: adding a child with the requested name `x` to a
parent already owning a child named `x`. -/
theorem C5_witness :
    addSubComponent cClashRoot "x" "MyClass" [] 2 =
      (cClashRoot, Except.error Err.nameClash) :=
  C5_addSubComponent_name_clash cClashRoot "x" "MyClass" [] 2 (by decide)

/-- Claim C6 (confirmed): `removeSubComponent` selects the child by
pointer identity, not by instance name — both clauses constrain nothing
but the children's addresses, their instance names are arbitrary.  When
some owned child is identical to the handle, exactly the first such child
is removed (regardless of any name).  When no owned child is identical to
the handle, no error is raised: the call returns with the sub-Component
list unchanged, the caller's handle intact, and emits exactly the
non-fatal not-found log. -/
theorem C6_removeSubComponent_identity
    (parent : Comp) (handle : Nat) :
    ((∀ c ∈ parent.subs, c.cid ≠ handle) →
      removeSubComponent parent handle = (parent, some handle, [Ev.logNotFound])) ∧
    ((∃ c ∈ parent.subs, c.cid = handle) →
      ∃ pre c post, parent.subs = pre ++ c :: post ∧ c.cid = handle ∧
        (∀ x ∈ pre, x.cid ≠ handle) ∧
        (removeSubComponent parent handle).1.subs = pre ++ post) := by
  constructor
  · intro h
    rw [removeSubComponent, removeSubLoop_eq_none parent.subs handle h]
  · intro hex
    rcases removeSubLoop_spec parent.subs handle hex with
      ⟨pre, c, post, hsplit, hcid, hpre, hloop⟩
    refine ⟨pre, c, post, hsplit, hcid, hpre, ?_⟩
    rw [removeSubComponent, hloop]
    exact withSubs_subs parent (pre ++ post)

/-- Claim C6, witness: removal with a handle matching no child's
address leaves everything unchanged and only logs. -/
theorem C6_witness :
    removeSubComponent cRemParent 7 = (cRemParent, some 7, [Ev.logNotFound]) :=
  (C6_removeSubComponent_identity cRemParent 7).1 (by decide)

/-- Claim C10 (confirmed): on the found path of `removeSubComponent` the
caller's handle is reset to null, and the reset event precedes the
detach event in the emitted program-order trace; on the not-found path
the caller's handle is returned unchanged. -/
theorem C10_removeSubComponent_handle
    (parent : Comp) (handle : Nat) :
    ((∃ c ∈ parent.subs, c.cid = handle) →
      (removeSubComponent parent handle).2.1 = none ∧
      (removeSubComponent parent handle).2.2 =
        [Ev.resetHandle, Ev.uninitChild handle, Ev.detachChild handle]) ∧
    ((∀ c ∈ parent.subs, c.cid ≠ handle) →
      (removeSubComponent parent handle).2 = (some handle, [Ev.logNotFound])) := by
  constructor
  · intro hex
    rcases removeSubLoop_found parent.subs handle hex with ⟨subs2, hloop⟩
    rw [removeSubComponent, hloop]
    exact ⟨rfl, rfl⟩
  · intro hall
    rw [removeSubComponent, removeSubLoop_eq_none parent.subs handle hall]

/-- Claim C10, witness: removing the child with address 2 resets the
handle, with the reset logged before the detach. -/
theorem C10_witness :
    (removeSubComponent cRemParent 2).2.1 = none ∧
    (removeSubComponent cRemParent 2).2.2 =
      [Ev.resetHandle, Ev.uninitChild 2, Ev.detachChild 2] :=
  (C10_removeSubComponent_handle cRemParent 2).1 (by decide)

/-- Claim C8 (confirmed): setting the Serial `format` parameter succeeds
exactly for three-character strings matching `^[5-8][NEO][12]$` — data
bits `5`-`8`, parity `N`/`E`/`O`, stop bits `1`/`2` — and for any other
string the set raises a validation error and the stored value is
unchanged. -/
theorem C8_format_set_characterization (p : FormatParam) (s : String) :
    ((formatSet p s).2 = Except.ok () ↔
      ∃ d q r, s.data = [d, q, r] ∧ ('5' ≤ d ∧ d ≤ '8') ∧
        (q = 'N' ∨ q = 'E' ∨ q = 'O') ∧ (r = '1' ∨ r = '2')) ∧
    ((formatSet p s).2 ≠ Except.ok () →
      formatSet p s = (p, Except.error Err.validation)) := by
  constructor
  · rw [← matchesFormatRegex_iff]
    rw [formatSet]
    by_cases hm : matchesFormatRegex s
    · simp [hm]
    · simp [hm]
  · intro hne
    rw [formatSet] at hne ⊢
    by_cases hm : matchesFormatRegex s
    · simp [hm] at hne
    · simp [hm]

/-- Claim C8, witness: the accepting direction applied to the format
string `5O2`, and the rejecting direction applied to `9N1` (wrong data
bits), which leaves the stored value `8N1` unchanged. -/
theorem C8_witness :
    (formatSet ⟨"8N1"⟩ "5O2").2 = Except.ok () ∧
    formatSet ⟨"8N1"⟩ "9N1" = (⟨"8N1"⟩, Except.error Err.validation) :=
  ⟨(C8_format_set_characterization ⟨"8N1"⟩ "5O2").1.mpr
      ⟨'5', 'O', '2', by decide⟩,
    (C8_format_set_characterization ⟨"8N1"⟩ "9N1").2 (by decide)⟩

/-- Claim C9 (confirmed, modelled from the spec since Serial.C is not
under src/): with `linestyle = CRLF`, `writeString(s)` emits exactly the
bytes of `s` followed by the two bytes CR LF and nothing else; in
particular `writeString("ok")` emits exactly the four bytes `o`, `k`,
CR, LF. -/
theorem C9_writeString_crlf (s : String) :
    writeString LineStyle.CRLF s = s.data ++ ['\x0d', '\x0a'] ∧
    writeString LineStyle.CRLF "ok" = ['o', 'k', '\x0d', '\x0a'] :=
  ⟨rfl, rfl⟩

end JevoisModel
